import Mathlib

/-!
Shallow embedding of flair/trainers/plugins/base.py: the Pluggable event
dispatcher, HookHandle registration tokens and the BasePlugin attach and
detach lifecycle.

Modelling conventions:
* Hook callables are modelled by the observable behaviours the claims
  quantify over: the events they re-entrantly dispatch, whether they raise,
  and the mapping they return (HookFunc).  Positional and keyword arguments
  of hooks are elided; no claim depends on them.
* Python exceptions become an Err value.  Stateful operations that can
  raise after having already mutated state return the state at the point of
  the raise together with the error, mirroring the fact that a Python
  exception leaves prior mutations of the object in place.
* An invocation log (event name, handle id, appended at the moment a hook
  callable starts running) is added to the state as the observation of the
  order in which hooks fire.
* The while loop of Pluggable.dispatch and the recursion through nested
  dispatch calls and dependency attachment are made total with a fuel
  parameter; running out of fuel is the distinguished Err.outOfFuel, which
  the Python code would exhibit as nontermination or unbounded recursion.
-/

abbrev EventIdenifier := String

abbrev HookHandleId := Nat

/-- A Python dict with string keys and integer values, insertion ordered
(association list; assigning to an existing key keeps its position). -/
abbrev PyDict := List (String × Int)

def pyDictSet (d : PyDict) (k : String) (v : Int) : PyDict :=
  if d.any (fun kv => kv.1 = k) then
    d.map (fun kv => if kv.1 = k then (k, v) else kv)
  else d ++ [(k, v)]

/-- Python dict.update: fold the entries of the second dict into the first. -/
def pyDictUpdate (d : PyDict) : PyDict → PyDict
  | [] => d
  | (k, v) :: rest => pyDictUpdate (pyDictSet d k v) rest

/-- The behaviour of a hook callable (the func wrapped by a HookHandle):
when invoked it dispatches the listed events in order (nested dispatch
calls), then either raises or returns retVal (a dict or None). -/
structure HookFunc where
  dispatches : List EventIdenifier := []
  raises : Bool := false
  retVal : Option PyDict := none
deriving DecidableEq, Repr

/-- HookHandle: registration information of a hook callback (id, the events
it is registered for, and the callback). -/
structure HookHandle where
  id : HookHandleId
  events : List EventIdenifier
  func : HookFunc
deriving DecidableEq, Repr

/-- Python-level failure conditions of the embedded code. -/
inductive Err where
  | unknownEvent (e : EventIdenifier)
  | keyError
  | assertionError
  | hookException
  | outOfFuel
  | badIndex
deriving DecidableEq, Repr

/-- State of a Pluggable instance.  plugins holds indices into the ambient
list of plugin instances (see World below). -/
structure Pluggable where
  validEvents : Option (List EventIdenifier) := none
  hookHandles : List (EventIdenifier × List HookHandle) := []
  hookHandleIdCounter : Nat := 0
  plugins : List Nat := []
  eventQueue : List (EventIdenifier × Nat) := []
  processingEvents : Bool := false
  results : List PyDict := []
  invocationLog : List (EventIdenifier × HookHandleId) := []
deriving DecidableEq, Repr

/-- Read the bucket of an event in the hook registry (defaultdict: a missing
event reads as the empty bucket; keys are unique, first match wins). -/
def getBucket : List (EventIdenifier × List HookHandle) → EventIdenifier → List HookHandle
  | [], _ => []
  | kv :: rest, e => if kv.1 = e then kv.2 else getBucket rest e

/-- Write the bucket of an event: replace in place when the key is present
(keeping its position, as a Python dict does), append at the end otherwise. -/
def setBucket : List (EventIdenifier × List HookHandle) → EventIdenifier →
    List HookHandle → List (EventIdenifier × List HookHandle)
  | [], e, b => [(e, b)]
  | kv :: rest, e, b => if kv.1 = e then (e, b) :: rest else kv :: setBucket rest e b

/-- Pluggable.validate_event.  Faithful to the source: the return statement
sits inside the for loop, so only the first event name is ever checked and
the loop body runs at most once. -/
def validate_event (p : Pluggable) : List EventIdenifier →
    Except Err (Option EventIdenifier)
  | [] => .ok none
  | event :: _ =>
    match p.validEvents with
    | some ve =>
      if event ∈ ve then .ok (some event)
      else .error (.unknownEvent event)
    | none => .ok (some event)

/-- Python dict assignment bucket[h.id] = h: replace in place if the key is
present, append otherwise. -/
def bucketInsert (b : List HookHandle) (h : HookHandle) : List HookHandle :=
  if b.any (fun x => x.id = h.id) then
    b.map (fun x => if x.id = h.id then h else x)
  else b ++ [h]

/-- The loop of register_hook: for event in events, store the handle under
that event. -/
def storeHandle (hh : List (EventIdenifier × List HookHandle)) (h : HookHandle) :
    List EventIdenifier → List (EventIdenifier × List HookHandle)
  | [] => hh
  | e :: rest => storeHandle (setBucket hh e (bucketInsert (getBucket hh e) h)) h rest

/-- Pluggable.register_hook. -/
def register_hook (p : Pluggable) (func : HookFunc) (events : List EventIdenifier) :
    Except Err (Pluggable × HookHandle) :=
  match validate_event p events with
  | .error er => .error er
  | .ok _ =>
    let handle : HookHandle := ⟨p.hookHandleIdCounter, events, func⟩
    .ok ({ p with
            hookHandleIdCounter := p.hookHandleIdCounter + 1,
            hookHandles := storeHandle p.hookHandles handle events },
         handle)

/-- The loop of remove_hook: for event in handle.events, del bucket[id].
A KeyError leaves the deletions already performed in place, so the error
carries the partially mutated state. -/
def removeFromEvents (p : Pluggable) (hid : HookHandleId) :
    List EventIdenifier → Except (Err × Pluggable) Pluggable
  | [] => .ok p
  | e :: rest =>
    let b := getBucket p.hookHandles e
    if b.any (fun x => x.id = hid) then
      removeFromEvents
        { p with hookHandles := setBucket p.hookHandles e (b.filter (fun x => x.id ≠ hid)) }
        hid rest
    else .error (.keyError, p)

/-- Pluggable.remove_hook (reached both directly and via HookHandle.remove). -/
def remove_hook (p : Pluggable) (handle : HookHandle) : Except (Err × Pluggable) Pluggable :=
  removeFromEvents p handle.id handle.events

/-- The mutually recursive pieces of event delivery, defunctionalised so the
whole interpreter is a single structural recursion on fuel:
dispatchEv is Pluggable.dispatch, drainQueue its while loop, runHooks its
for loop over one queue entry, hookHandleCall is HookHandle.call (the
method with no return statement), runHookFunc the hook callable itself, and
dispatchEach the sequence of nested dispatch calls a callable makes. -/
inductive Call where
  | dispatchEv (event : EventIdenifier)
  | drainQueue
  | runHooks (hooks : List HookHandle) (event : EventIdenifier) (slot : Nat)
  | hookHandleCall (h : HookHandle) (event : EventIdenifier)
  | runHookFunc (h : HookHandle) (event : EventIdenifier)
  | dispatchEach (events : List EventIdenifier)

/-- One-step interpreter for event delivery.  Results are (state, returned
dict or None, result slot); errors carry the state at the raise, since in
Python the exception propagates while the object keeps its mutations. -/
def exec : Nat → Pluggable → Call → Except (Err × Pluggable) (Pluggable × Option PyDict × Nat)
  | 0, p, _ => .error (.outOfFuel, p)
  | fuel + 1, p, c =>
    match c with
    | .dispatchEv event =>
      match validate_event p [event] with
      | .error er => .error (er, p)
      | .ok _ =>
        let slot := p.results.length
        let p1 := { p with
                     results := p.results ++ [[]],
                     eventQueue := p.eventQueue ++ [(event, slot)] }
        if p1.processingEvents then
          .ok (p1, none, slot)
        else
          match exec fuel { p1 with processingEvents := true } .drainQueue with
          | .error ep => .error ep
          | .ok (p2, _, _) => .ok ({ p2 with processingEvents := false }, none, slot)
    | .drainQueue =>
      match p.eventQueue with
      | [] => .ok (p, none, 0)
      | (event, slot) :: rest =>
        match exec fuel { p with eventQueue := rest }
                (.runHooks (getBucket p.hookHandles event) event slot) with
        | .error ep => .error ep
        | .ok (p1, _, _) => exec fuel p1 .drainQueue
    | .runHooks hooks event slot =>
      match hooks with
      | [] => .ok (p, none, 0)
      | h :: rest =>
        match exec fuel p (.hookHandleCall h event) with
        | .error ep => .error ep
        | .ok (p1, returned, _) =>
          let p2 := match returned with
            | some d =>
              { p1 with results := p1.results.set slot (pyDictUpdate (p1.results.getD slot []) d) }
            | none => p1
          exec fuel p2 (.runHooks rest event slot)
    | .hookHandleCall h event =>
      match exec fuel p (.runHookFunc h event) with
      | .error ep => .error ep
      | .ok (p1, _, _) => .ok (p1, none, 0)
    | .runHookFunc h event =>
      let p1 := { p with invocationLog := p.invocationLog ++ [(event, h.id)] }
      match exec fuel p1 (.dispatchEach h.func.dispatches) with
      | .error ep => .error ep
      | .ok (p2, _, _) =>
        if h.func.raises then .error (.hookException, p2)
        else .ok (p2, h.func.retVal, 0)
    | .dispatchEach events =>
      match events with
      | [] => .ok (p, none, 0)
      | e :: rest =>
        match exec fuel p (.dispatchEv e) with
        | .error ep => .error ep
        | .ok (p1, _, _) => exec fuel p1 (.dispatchEach rest)

/-- Pluggable.dispatch: validate, enqueue a record with a fresh result dict,
and drain the queue unless a drain loop is already running.  The returned
slot indexes the result dict belonging to this call. -/
def dispatch (fuel : Nat) (p : Pluggable) (event : EventIdenifier) :
    Except (Err × Pluggable) (Pluggable × Option PyDict × Nat) :=
  exec fuel p (.dispatchEv event)

/-! ### Concrete fixtures used by the claim theorems and witnesses -/

/-- A hook for event X whose callable raises. -/
def hookRaisingX : HookHandle := ⟨0, ["X"], { raises := true }⟩

/-- A harmless hook for event Y. -/
def hookHarmlessY : HookHandle := ⟨1, ["Y"], {}⟩

/-- Pluggable with a throwing hook on X and a harmless hook on Y. -/
def pluggableXY : Pluggable :=
  { hookHandles := [("X", [hookRaisingX]), ("Y", [hookHarmlessY])], hookHandleIdCounter := 2 }

/-- Project the state out of a dispatch outcome (ok or error). -/
def outState (r : Except (Err × Pluggable) (Pluggable × Option PyDict × Nat)) : Pluggable :=
  match r with
  | .error (_, q) => q
  | .ok (q, _, _) => q

/-- State after dispatching X on pluggableXY (the hook raises). -/
def pluggableXYafter : Pluggable := outState (dispatch 10 pluggableXY "X")

/-- State after then dispatching Y on the broken dispatcher. -/
def pluggableXYafter2 : Pluggable := outState (dispatch 10 pluggableXYafter "Y")

/-- Two hooks on one event returning the dicts k1 = 1 and k2 = 2. -/
def hookRetK1 : HookHandle := ⟨0, ["e"], { retVal := some [("k1", 1)] }⟩

def hookRetK2 : HookHandle := ⟨1, ["e"], { retVal := some [("k2", 2)] }⟩

def pluggableMerge : Pluggable :=
  { hookHandles := [("e", [hookRetK1, hookRetK2])], hookHandleIdCounter := 2 }

def pluggableMergeAfter : Pluggable := outState (dispatch 10 pluggableMerge "e")

/-- Two hooks on one event both returning a dict for the key k. -/
def hookRetKa : HookHandle := ⟨0, ["e"], { retVal := some [("k", 1)] }⟩

def hookRetKb : HookHandle := ⟨1, ["e"], { retVal := some [("k", 2)] }⟩

def pluggableCollide : Pluggable :=
  { hookHandles := [("e", [hookRetKa, hookRetKb])], hookHandleIdCounter := 2 }

def pluggableCollideAfter : Pluggable := outState (dispatch 10 pluggableCollide "e")

/-- Pluggable restricted to the single valid event a. -/
def pluggableValidA : Pluggable := { validEvents := some ["a"] }

/-! ### BasePlugin: plugin classes, instances and the attach and detach
lifecycle (BasePlugin.attach_to, BasePlugin.detach, Pluggable.__init__). -/

/-- A plugin class: its name, the names of its proper superclasses (for
isinstance), the dependencies tuple, provided_events, and the methods the
attribute scan of attach_to finds marked as hooks (each with the events of
its plugin_hook_events marker). -/
inductive PluginClass : Type where
  | mk : String → List String → List PluginClass →
      Option (List EventIdenifier) → List (HookFunc × List EventIdenifier) → PluginClass

def PluginClass.name : PluginClass → String
  | .mk n _ _ _ _ => n

def PluginClass.ancestors : PluginClass → List String
  | .mk _ a _ _ _ => a

def PluginClass.deps : PluginClass → List PluginClass
  | .mk _ _ d _ _ => d

def PluginClass.providedEvents : PluginClass → Option (List EventIdenifier)
  | .mk _ _ _ pe _ => pe

def PluginClass.hookDecls : PluginClass → List (HookFunc × List EventIdenifier)
  | .mk _ _ _ _ hd => hd

/-- Python isinstance(x, dep) for a plugin instance of class c: the class is
dep itself or a subclass of dep. -/
def isinstanceOf (c dep : PluginClass) : Bool :=
  c.name = dep.name || dep.name ∈ c.ancestors

/-- A plugin instance: its class, whether its pluggable reference is set
(there is a single Pluggable in scope), and the handles it retains. -/
structure PluginInst where
  cls : PluginClass
  attached : Bool := false
  hookHandles : List HookHandle := []

/-- The object graph: the single Pluggable plus every plugin instance ever
constructed, addressed by index.  Pluggable.plugins holds such indices. -/
structure World where
  plug : Pluggable
  instances : List PluginInst

def setInst (w : World) (i : Nat) (inst : PluginInst) : World :=
  { w with instances := w.instances.set i inst }

/-- The dependency scan of attach_to: some already attached plugin instance
is an isinstance of dep. -/
def depSatisfied (w : World) (dep : PluginClass) : Bool :=
  w.plug.plugins.any (fun j =>
    match w.instances.get? j with
    | some inst => isinstanceOf inst.cls dep
    | none => false)

/-- The attribute scan at the end of attach_to: register every marked method
with the dispatcher and retain the returned handles. -/
def registerMarkedHooks (w : World) (i : Nat) :
    List (HookFunc × List EventIdenifier) → Except Err World
  | [] => .ok w
  | (f, evs) :: rest =>
    match register_hook w.plug f evs with
    | .error er => .error er
    | .ok (plug1, handle) =>
      match w.instances.get? i with
      | none => .error .badIndex
      | some inst =>
        registerMarkedHooks
          { plug := plug1,
            instances := w.instances.set i
              { inst with hookHandles := inst.hookHandles ++ [handle] } }
          i rest

/-- Python set union, on insertion-ordered lists with set membership. -/
def setUnion (a b : List EventIdenifier) : List EventIdenifier :=
  a ++ b.filter (fun e => ¬ a.contains e)

/-- valid_events extension of attach_to: only when both sets are non-None. -/
def extendValidEvents (p : Pluggable) (provided : Option (List EventIdenifier)) : Pluggable :=
  match provided, p.validEvents with
  | some pe, some ve => { p with validEvents := some (setUnion ve pe) }
  | _, _ => p

/-- Pluggable.append_plugin. -/
def append_plugin (p : Pluggable) (i : Nat) : Pluggable :=
  { p with plugins := p.plugins ++ [i] }

/-- The two mutually recursive pieces of BasePlugin.attach_to: the method
itself and its dependency-resolution loop. -/
inductive PCall where
  | attachTo (i : Nat)
  | attachDeps (deps : List PluginClass)

/-- BasePlugin.attach_to as a fuel interpreter.  attachTo i:
assert not attached and no handles; set the pluggable reference; resolve
dependencies (auto-instantiating a dependency with no constructor arguments
when no isinstance-compatible instance is attached); extend valid_events;
append self to pluggable.plugins; register the marked hook methods. -/
def pexec : Nat → World → PCall → Except Err World
  | 0, _, _ => .error .outOfFuel
  | fuel + 1, w, c =>
    match c with
    | .attachTo i =>
      match w.instances.get? i with
      | none => .error .badIndex
      | some inst =>
        if inst.attached then .error .assertionError
        else if ¬ inst.hookHandles.isEmpty then .error .assertionError
        else
          match pexec fuel (setInst w i { inst with attached := true })
                  (.attachDeps inst.cls.deps) with
          | .error er => .error er
          | .ok w2 =>
            let plug := extendValidEvents w2.plug inst.cls.providedEvents
            let plug := append_plugin plug i
            registerMarkedHooks { w2 with plug := plug } i inst.cls.hookDecls
    | .attachDeps deps =>
      match deps with
      | [] => .ok w
      | dep :: rest =>
        if depSatisfied w dep then pexec fuel w (.attachDeps rest)
        else
          let j := w.instances.length
          let w1 := { w with instances := w.instances ++ [{ cls := dep }] }
          match pexec fuel w1 (.attachTo j) with
          | .error er => .error er
          | .ok w2 => pexec fuel w2 (.attachDeps rest)

/-- BasePlugin.attach_to. -/
def attach_to (fuel : Nat) (w : World) (i : Nat) : Except Err World :=
  pexec fuel w (.attachTo i)

/-- The loop of BasePlugin.detach: for handle in self.hook_handles,
handle.remove(). -/
def removeAllHandles (p : Pluggable) : List HookHandle → Except (Err × Pluggable) Pluggable
  | [] => .ok p
  | h :: rest =>
    match remove_hook p h with
    | .error ep => .error ep
    | .ok p1 => removeAllHandles p1 rest

/-- BasePlugin.detach: assert attached; remove every retained handle from
the dispatcher; clear the pluggable reference and the handle list. -/
def detach (w : World) (i : Nat) : Except Err World :=
  match w.instances.get? i with
  | none => .error .badIndex
  | some inst =>
    if inst.attached = false then .error .assertionError
    else
      match removeAllHandles w.plug inst.hookHandles with
      | .error ep => .error ep.1
      | .ok plug1 =>
        .ok { plug := plug1,
              instances := w.instances.set i { inst with attached := false, hookHandles := [] } }

/-- The constructor loop of Pluggable.__init__ over a list of plugin
classes: instantiate each with no arguments and attach it. -/
def attachAll (fuel : Nat) (w : World) : List PluginClass → Except Err World
  | [] => .ok w
  | cls :: rest =>
    let j := w.instances.length
    let w1 := { w with instances := w.instances ++ [{ cls := cls }] }
    match pexec fuel w1 (.attachTo j) with
    | .error er => .error er
    | .ok w2 => attachAll fuel w2 rest

/-- Pluggable.__init__ with a sequence of plugin classes. -/
def pluggableInit (fuel : Nat) (ve : Option (List EventIdenifier))
    (classes : List PluginClass) : Except Err World :=
  attachAll fuel { plug := { validEvents := ve }, instances := [] } classes

/-- Reentrancy scenario: the first hook of A dispatches B, a second hook of
A follows, and B has one hook. -/
def hookA1 : HookHandle := ⟨0, ["A"], { dispatches := ["B"] }⟩

def hookA2 : HookHandle := ⟨1, ["A"], {}⟩

def hookB1 : HookHandle := ⟨2, ["B"], {}⟩

def pluggableReentrant : Pluggable :=
  { hookHandles := [("A", [hookA1, hookA2]), ("B", [hookB1])], hookHandleIdCounter := 3 }

def pluggableReentrantAfter : Pluggable := outState (dispatch 20 pluggableReentrant "A")

/-- Three pure hooks registered for event e in id order. -/
def pluggableOrder : Pluggable :=
  { hookHandles := [("e", [⟨0, ["e"], {}⟩, ⟨1, ["e"], {}⟩, ⟨2, ["e"], {}⟩])],
    hookHandleIdCounter := 3 }

def pluggableOrderAfter : Pluggable := outState (dispatch 10 pluggableOrder "e")

/-- Project the state out of a register_hook outcome. -/
def regOkState (r : Except Err (Pluggable × HookHandle)) : Pluggable :=
  match r with
  | .ok (q, _) => q
  | .error _ => {}

/-- Project the handle out of a register_hook outcome. -/
def regOkHandle (r : Except Err (Pluggable × HookHandle)) : HookHandle :=
  match r with
  | .ok (_, h) => h
  | .error _ => ⟨0, [], {}⟩

def pluggableOrderReg : Pluggable := regOkState (register_hook {} {} ["e"])

/-- The embedded hook handles a Call mentions (used to state that delivery
never invokes a given handle id when the registry does not contain it). -/
def callAvoids (bad : HookHandleId) : Call → Prop
  | .runHooks hooks _ _ => ∀ hk ∈ hooks, hk.id ≠ bad
  | .hookHandleCall hk _ => hk.id ≠ bad
  | .runHookFunc hk _ => hk.id ≠ bad
  | _ => True

/-- Project the state out of a remove_hook outcome. -/
def remOkState (r : Except (Err × Pluggable) Pluggable) : Pluggable :=
  match r with
  | .ok q => q
  | .error (_, q) => q

def pluggableRemReg : Pluggable := regOkState (register_hook {} {} ["a"])

def handleRem : HookHandle := regOkHandle (register_hook {} {} ["a"])

def pluggableRemAfter : Pluggable := remOkState (remove_hook pluggableRemReg handleRem)

/-- A plugin class with one marked hook method for event ev. -/
def clsH : PluginClass := .mk "PluginH" [] [] none [({}, ["ev"])]

/-- A plugin class with no dependencies and no hooks. -/
def clsG : PluginClass := .mk "PluginG" [] [] none []

/-- A plugin class depending on PluginH. -/
def clsNeedsH : PluginClass := .mk "NeedsH" [] [clsH] none []

/-- Project the world out of an attach or init outcome. -/
def pOkWorld (r : Except Err World) : World :=
  match r with
  | .ok w => w
  | .error _ => ⟨{}, []⟩

def worldH : World := pOkWorld (pluggableInit 10 none [clsH])

def worldHdetached : World := pOkWorld (detach worldH 0)

def worldG : World := pOkWorld (pluggableInit 10 none [clsG])

def worldGdetached : World := pOkWorld (detach worldG 0)

/-- The example scenario classes: PluginB depends on PluginA. -/
def clsA : PluginClass := .mk "PluginA" [] [] none []

def clsB : PluginClass := .mk "PluginB" [] [clsA] none []

/-! ### Claim theorems -/

/-- C1.  The claim says a hook exception leaves isDispatching cleared so a
later dispatch runs hooks again.  The code has no try/finally around the
drain loop: dispatching X (whose hook raises) propagates the exception with
processingEvents still true, and the later dispatch of Y merely enqueues
without invoking the Y hook (the invocation log does not grow), the flag
remaining stuck.  This refutes the claim on the code. -/
theorem c1_exception_leaves_flag_set :
    dispatch 10 pluggableXY "X" = .error (.hookException, pluggableXYafter)
    ∧ pluggableXYafter.processingEvents = true
    ∧ dispatch 10 pluggableXYafter "Y" = .ok (pluggableXYafter2, none, 1)
    ∧ pluggableXYafter2.invocationLog = pluggableXYafter.invocationLog
    ∧ pluggableXYafter2.processingEvents = true := by
  exact ⟨rfl, rfl, rfl, rfl, rfl⟩

/-- C2.  The claim says mapping-valued hook returns are merged into the
result of dispatch.  HookHandle.call has no return statement, so dispatch
always sees None: both hooks of event e run, yet the result dict of the
call stays empty instead of containing k1 = 1 and k2 = 2, and in the
collision scenario the key k is absent instead of mapping to 2. -/
theorem c2_returns_are_discarded :
    dispatch 10 pluggableMerge "e" = .ok (pluggableMergeAfter, none, 0)
    ∧ pluggableMergeAfter.invocationLog = [("e", 0), ("e", 1)]
    ∧ pluggableMergeAfter.results.getD 0 [] = []
    ∧ pluggableMergeAfter.results.getD 0 [] ≠ [("k1", 1), ("k2", 2)]
    ∧ dispatch 10 pluggableCollide "e" = .ok (pluggableCollideAfter, none, 0)
    ∧ (pluggableCollideAfter.results.getD 0 []).lookup "k" ≠ some 2 := by
  refine ⟨rfl, rfl, rfl, by decide, rfl, by decide⟩

/-- C3.  The claim says register_hook fails when any of the passed event
names is unknown, storing nothing.  validate_event returns from inside its
for loop, so only the first name is checked: with validEvents restricted to
a, registering for (a, b) succeeds and even stores the handle under the
unknown event b, while registering for (b, a) fails. -/
theorem c3_only_first_event_validated :
    (∃ p1 h, register_hook pluggableValidA {} ["a", "b"] = .ok (p1, h)
       ∧ getBucket p1.hookHandles "b" = [h])
    ∧ register_hook pluggableValidA {} ["b", "a"] = .error (.unknownEvent "b") := by
  exact ⟨⟨_, ⟨0, ["a", "b"], {}⟩, rfl, rfl⟩, rfl⟩

/-! ### General lemmas about the delivery interpreter -/

/-- The dispatcher fields event delivery never mutates: the valid-event set
and the hook registry. -/
def sameCore (p q : Pluggable) : Prop :=
  q.validEvents = p.validEvents ∧ q.hookHandles = p.hookHandles

theorem sameCore_refl (p : Pluggable) : sameCore p p := ⟨rfl, rfl⟩

theorem sameCore_trans {p q r : Pluggable} (h1 : sameCore p q) (h2 : sameCore q r) :
    sameCore p r :=
  ⟨h2.1.trans h1.1, h2.2.trans h1.2⟩

theorem exec_outState_core (fuel : Nat) : ∀ (p : Pluggable) (c : Call),
    sameCore p (outState (exec fuel p c)) := by
  induction fuel with
  | zero => intro p c; exact sameCore_refl p
  | succ fuel ih =>
    intro p c
    cases c with
    | dispatchEv event =>
      simp only [exec]
      cases hv : validate_event p [event] with
      | error er => exact sameCore_refl p
      | ok o =>
        simp only []
        cases hb : p.processingEvents with
        | true => exact ⟨rfl, rfl⟩
        | false =>
          cases he : exec fuel
              { p with
                results := p.results ++ [[]],
                eventQueue := p.eventQueue ++ [(event, p.results.length)],
                processingEvents := true } .drainQueue with
          | error ep =>
            simp only [he]
            have := ih { p with
              results := p.results ++ [[]],
              eventQueue := p.eventQueue ++ [(event, p.results.length)],
              processingEvents := true } .drainQueue
            rw [he] at this
            exact sameCore_trans ⟨rfl, rfl⟩ this
          | ok r =>
            simp only [he]
            have := ih { p with
              results := p.results ++ [[]],
              eventQueue := p.eventQueue ++ [(event, p.results.length)],
              processingEvents := true } .drainQueue
            rw [he] at this
            exact sameCore_trans (sameCore_trans ⟨rfl, rfl⟩ this) ⟨rfl, rfl⟩
    | drainQueue =>
      simp only [exec]
      cases hq : p.eventQueue with
      | nil => exact sameCore_refl p
      | cons hd rest =>
        obtain ⟨event, slot⟩ := hd
        simp only []
        cases he : exec fuel { p with eventQueue := rest }
            (.runHooks (getBucket p.hookHandles event) event slot) with
        | error ep =>
          simp only [he]
          have := ih { p with eventQueue := rest }
            (.runHooks (getBucket p.hookHandles event) event slot)
          rw [he] at this
          exact sameCore_trans ⟨rfl, rfl⟩ this
        | ok r =>
          obtain ⟨p1, v1, s1⟩ := r
          simp only [he]
          have h1 := ih { p with eventQueue := rest }
            (.runHooks (getBucket p.hookHandles event) event slot)
          rw [he] at h1
          exact sameCore_trans (sameCore_trans ⟨rfl, rfl⟩ h1) (ih p1 .drainQueue)
    | runHooks hooks event slot =>
      simp only [exec]
      cases hooks with
      | nil => exact sameCore_refl p
      | cons h rest =>
        simp only []
        cases he : exec fuel p (.hookHandleCall h event) with
        | error ep =>
          simp only [he]
          have := ih p (.hookHandleCall h event)
          rw [he] at this
          exact this
        | ok r =>
          obtain ⟨p1, returned, s1⟩ := r
          simp only [he]
          have h1 := ih p (.hookHandleCall h event)
          rw [he] at h1
          cases returned with
          | none => exact sameCore_trans h1 (ih p1 (.runHooks rest event slot))
          | some d =>
            exact sameCore_trans h1 (sameCore_trans ⟨rfl, rfl⟩
              (ih _ (.runHooks rest event slot)))
    | hookHandleCall h event =>
      simp only [exec]
      cases he : exec fuel p (.runHookFunc h event) with
      | error ep =>
        simp only [he]
        have := ih p (.runHookFunc h event)
        rw [he] at this
        exact this
      | ok r =>
        obtain ⟨p1, v1, s1⟩ := r
        simp only [he]
        have h1 := ih p (.runHookFunc h event)
        rw [he] at h1
        exact h1
    | runHookFunc h event =>
      simp only [exec]
      cases he : exec fuel
          { p with invocationLog := p.invocationLog ++ [(event, h.id)] }
          (.dispatchEach h.func.dispatches) with
      | error ep =>
        simp only [he]
        have := ih { p with invocationLog := p.invocationLog ++ [(event, h.id)] }
          (.dispatchEach h.func.dispatches)
        rw [he] at this
        exact sameCore_trans ⟨rfl, rfl⟩ this
      | ok r =>
        obtain ⟨p2, v2, s2⟩ := r
        simp only [he]
        have h1 := ih { p with invocationLog := p.invocationLog ++ [(event, h.id)] }
          (.dispatchEach h.func.dispatches)
        rw [he] at h1
        cases hr : h.func.raises with
        | true => simp only [hr]; exact sameCore_trans ⟨rfl, rfl⟩ h1
        | false => exact sameCore_trans ⟨rfl, rfl⟩ h1
    | dispatchEach events =>
      simp only [exec]
      cases events with
      | nil => exact sameCore_refl p
      | cons e rest =>
        simp only []
        cases he : exec fuel p (.dispatchEv e) with
        | error ep =>
          simp only [he]
          have := ih p (.dispatchEv e)
          rw [he] at this
          exact this
        | ok r =>
          obtain ⟨p1, v1, s1⟩ := r
          simp only [he]
          have h1 := ih p (.dispatchEv e)
          rw [he] at h1
          exact sameCore_trans h1 (ih p1 (.dispatchEach rest))

theorem exec_ok_core {fuel : Nat} {p p' : Pluggable} {c : Call} {v : Option PyDict} {s : Nat}
    (h : exec fuel p c = .ok (p', v, s)) : sameCore p p' := by
  have := exec_outState_core fuel p c
  rw [h] at this
  exact this

theorem exec_err_core {fuel : Nat} {p p' : Pluggable} {c : Call} {er : Err}
    (h : exec fuel p c = .error (er, p')) : sameCore p p' := by
  have := exec_outState_core fuel p c
  rw [h] at this
  exact this

/-- With an unrestricted valid-event set, no call of the delivery
interpreter can fail event validation: the UnknownEvent condition is
unreachable. -/
theorem exec_no_unknownEvent (fuel : Nat) : ∀ (p : Pluggable) (c : Call),
    p.validEvents = none → ∀ x q, exec fuel p c ≠ .error (.unknownEvent x, q) := by
  induction fuel with
  | zero =>
    intro p c hve x q h
    simp [exec] at h
  | succ fuel ih =>
    intro p c hve x q h
    cases c with
    | dispatchEv event =>
      simp only [exec] at h
      cases hv : validate_event p [event] with
      | error er => simp [validate_event, hve] at hv
      | ok o =>
        simp only [hv] at h
        cases hb : p.processingEvents with
        | true => simp [hb] at h
        | false =>
          simp only [hb, Bool.false_eq_true, if_false, if_true] at h
          cases he : exec fuel
              { p with
                results := p.results ++ [[]],
                eventQueue := p.eventQueue ++ [(event, p.results.length)],
                processingEvents := true } .drainQueue with
          | error ep =>
            simp only [he] at h
            obtain ⟨rfl, rfl⟩ : ep = (.unknownEvent x, q) := by
              cases h' : ep; simp [h'] at h; simp [h.1, h.2]
            exact ih { p with
              results := p.results ++ [[]],
              eventQueue := p.eventQueue ++ [(event, p.results.length)],
              processingEvents := true } .drainQueue hve x q he
          | ok r => obtain ⟨p2, v2, s2⟩ := r; simp [he] at h
    | drainQueue =>
      simp only [exec] at h
      cases hq : p.eventQueue with
      | nil => simp [hq] at h
      | cons hd rest =>
        obtain ⟨event, slot⟩ := hd
        simp only [hq] at h
        cases he : exec fuel { p with eventQueue := rest }
            (.runHooks (getBucket p.hookHandles event) event slot) with
        | error ep =>
          simp only [he] at h
          obtain ⟨rfl, rfl⟩ : ep = (.unknownEvent x, q) := by
            cases h' : ep; simp [h'] at h; simp [h.1, h.2]
          exact ih { p with eventQueue := rest }
            (.runHooks (getBucket p.hookHandles event) event slot) hve x q he
        | ok r =>
          obtain ⟨p1, v1, s1⟩ := r
          simp only [he] at h
          have hc := exec_ok_core he
          exact ih p1 .drainQueue (hc.1.trans hve) x q h
    | runHooks hooks event slot =>
      simp only [exec] at h
      cases hooks with
      | nil => simp at h
      | cons hk rest =>
        cases he : exec fuel p (.hookHandleCall hk event) with
        | error ep =>
          simp only [he] at h
          obtain ⟨rfl, rfl⟩ : ep = (.unknownEvent x, q) := by
            cases h' : ep; simp [h'] at h; simp [h.1, h.2]
          exact ih _ _ hve x q he
        | ok r =>
          obtain ⟨p1, returned, s1⟩ := r
          simp only [he] at h
          have hc := exec_ok_core he
          cases returned with
          | none => exact ih p1 (.runHooks rest event slot) (hc.1.trans hve) x q h
          | some d =>
            exact ih
              { p1 with results := p1.results.set slot (pyDictUpdate (p1.results.getD slot []) d) }
              (.runHooks rest event slot) (hc.1.trans hve) x q h
    | hookHandleCall hk event =>
      simp only [exec] at h
      cases he : exec fuel p (.runHookFunc hk event) with
      | error ep =>
        simp only [he] at h
        obtain ⟨rfl, rfl⟩ : ep = (.unknownEvent x, q) := by
          cases h' : ep; simp [h'] at h; simp [h.1, h.2]
        exact ih _ _ hve x q he
      | ok r => obtain ⟨p1, v1, s1⟩ := r; simp [he] at h
    | runHookFunc hk event =>
      simp only [exec] at h
      cases he : exec fuel
          { p with invocationLog := p.invocationLog ++ [(event, hk.id)] }
          (.dispatchEach hk.func.dispatches) with
      | error ep =>
        simp only [he] at h
        obtain ⟨rfl, rfl⟩ : ep = (.unknownEvent x, q) := by
          cases h' : ep; simp [h'] at h; simp [h.1, h.2]
        exact ih { p with invocationLog := p.invocationLog ++ [(event, hk.id)] }
          (.dispatchEach hk.func.dispatches) hve x q he
      | ok r =>
        obtain ⟨p2, v2, s2⟩ := r
        simp only [he] at h
        cases hr : hk.func.raises with
        | true => simp [hr] at h
        | false => simp [hr] at h
    | dispatchEach events =>
      simp only [exec] at h
      cases events with
      | nil => simp at h
      | cons e rest =>
        cases he : exec fuel p (.dispatchEv e) with
        | error ep =>
          simp only [he] at h
          obtain ⟨rfl, rfl⟩ : ep = (.unknownEvent x, q) := by
            cases h' : ep; simp [h'] at h; simp [h.1, h.2]
          exact ih _ _ hve x q he
        | ok r =>
          obtain ⟨p1, v1, s1⟩ := r
          simp only [he] at h
          have hc := exec_ok_core he
          exact ih p1 (.dispatchEach rest) (hc.1.trans hve) x q h

/-- A nested dispatch call made while the drain loop is running only
validates and enqueues: the invocation log is untouched and the event is
appended at the back of the queue. -/
theorem exec_dispatchEv_nested_char (fuel : Nat) {p p' : Pluggable}
    {event : EventIdenifier} {v : Option PyDict} {s : Nat}
    (hproc : p.processingEvents = true)
    (h : exec fuel p (.dispatchEv event) = .ok (p', v, s)) :
    p'.processingEvents = true ∧
    p'.invocationLog = p.invocationLog ∧
    p'.eventQueue.map Prod.fst = p.eventQueue.map Prod.fst ++ [event] := by
  cases fuel with
  | zero => simp [exec] at h
  | succ fuel =>
    simp only [exec] at h
    cases hv : validate_event p [event] with
    | error er => simp [hv] at h
    | ok o =>
      simp only [hv, hproc, if_true] at h
      obtain ⟨rfl, rfl, rfl⟩ : p' = _ ∧ v = none ∧ s = p.results.length := by
        simp only [Except.ok.injEq, Prod.mk.injEq] at h
        exact ⟨h.1.symm, h.2.1.symm, h.2.2.symm⟩
      refine ⟨rfl, rfl, by simp⟩

/-- While the drain loop runs, a sequence of nested dispatch calls appends
exactly its events at the back of the queue, in order, never touching the
log. -/
theorem exec_dispatchEach_char (fuel : Nat) : ∀ (es : List EventIdenifier)
    (p p' : Pluggable) (v : Option PyDict) (s : Nat),
    p.processingEvents = true →
    exec fuel p (.dispatchEach es) = .ok (p', v, s) →
    p'.processingEvents = true ∧
    p'.invocationLog = p.invocationLog ∧
    p'.eventQueue.map Prod.fst = p.eventQueue.map Prod.fst ++ es := by
  induction fuel with
  | zero => intro es p p' v s _ h; simp [exec] at h
  | succ fuel ih =>
    intro es p p' v s hproc h
    cases es with
    | nil =>
      simp only [exec, Except.ok.injEq, Prod.mk.injEq] at h
      obtain ⟨rfl, -, -⟩ := h
      exact ⟨hproc, rfl, by simp⟩
    | cons e rest =>
      simp only [exec] at h
      cases he : exec fuel p (.dispatchEv e) with
      | error ep => simp [he] at h
      | ok r =>
        obtain ⟨p1, v1, s1⟩ := r
        simp only [he] at h
        obtain ⟨hp1, hl1, hq1⟩ := exec_dispatchEv_nested_char fuel hproc he
        obtain ⟨hp2, hl2, hq2⟩ := ih rest p1 p' v s hp1 h
        refine ⟨hp2, hl2.trans hl1, ?_⟩
        rw [hq2, hq1, List.append_assoc]
        rfl

/-- Invoking a single hook callable while the drain loop runs: it logs its
invocation, appends its nested dispatches at the back of the queue, and its
return value is its retVal. -/
theorem exec_runHookFunc_char (fuel : Nat) {p p' : Pluggable} {hk : HookHandle}
    {event : EventIdenifier} {v : Option PyDict} {s : Nat}
    (hproc : p.processingEvents = true)
    (h : exec fuel p (.runHookFunc hk event) = .ok (p', v, s)) :
    p'.processingEvents = true ∧
    p'.invocationLog = p.invocationLog ++ [(event, hk.id)] ∧
    p'.eventQueue.map Prod.fst = p.eventQueue.map Prod.fst ++ hk.func.dispatches ∧
    v = hk.func.retVal := by
  cases fuel with
  | zero => simp [exec] at h
  | succ fuel =>
    simp only [exec] at h
    cases he : exec fuel
        { p with invocationLog := p.invocationLog ++ [(event, hk.id)] }
        (.dispatchEach hk.func.dispatches) with
    | error ep => simp [he] at h
    | ok r =>
      obtain ⟨p2, v2, s2⟩ := r
      simp only [he] at h
      obtain ⟨hp2, hl2, hq2⟩ := exec_dispatchEach_char fuel hk.func.dispatches
        { p with invocationLog := p.invocationLog ++ [(event, hk.id)] } p2 v2 s2 hproc he
      cases hr : hk.func.raises with
      | true => simp [hr] at h
      | false =>
        simp only [hr, Bool.false_eq_true, if_false, Except.ok.injEq, Prod.mk.injEq] at h
        obtain ⟨rfl, rfl, -⟩ := h
        exact ⟨hp2, hl2, hq2, rfl⟩

/-- HookHandle.call while the drain loop runs: runs the callable but
returns None (the method has no return statement). -/
theorem exec_hookHandleCall_char (fuel : Nat) {p p' : Pluggable} {hk : HookHandle}
    {event : EventIdenifier} {v : Option PyDict} {s : Nat}
    (hproc : p.processingEvents = true)
    (h : exec fuel p (.hookHandleCall hk event) = .ok (p', v, s)) :
    p'.processingEvents = true ∧
    p'.invocationLog = p.invocationLog ++ [(event, hk.id)] ∧
    p'.eventQueue.map Prod.fst = p.eventQueue.map Prod.fst ++ hk.func.dispatches ∧
    v = none := by
  cases fuel with
  | zero => simp [exec] at h
  | succ fuel =>
    simp only [exec] at h
    cases he : exec fuel p (.runHookFunc hk event) with
    | error ep => simp [he] at h
    | ok r =>
      obtain ⟨p1, v1, s1⟩ := r
      simp only [he, Except.ok.injEq, Prod.mk.injEq] at h
      obtain ⟨rfl, rfl, -⟩ := h
      obtain ⟨hp1, hl1, hq1, -⟩ := exec_runHookFunc_char fuel hproc he
      exact ⟨hp1, hl1, hq1, rfl⟩

/-- The for loop over one queue entry: every hook of the bucket is invoked
in list order (the log grows by exactly that block), and the nested
dispatches of the hooks are appended at the back of the queue in
first-in-first-out order of their dispatch calls. -/
theorem exec_runHooks_char (fuel : Nat) : ∀ (hooks : List HookHandle)
    (p p' : Pluggable) (event : EventIdenifier) (slot : Nat) (v : Option PyDict) (s : Nat),
    p.processingEvents = true →
    exec fuel p (.runHooks hooks event slot) = .ok (p', v, s) →
    p'.processingEvents = true ∧
    p'.invocationLog = p.invocationLog ++ hooks.map (fun hk => (event, hk.id)) ∧
    p'.eventQueue.map Prod.fst
      = p.eventQueue.map Prod.fst ++ (hooks.map (fun hk => hk.func.dispatches)).flatten := by
  induction fuel with
  | zero => intro hooks p p' event slot v s _ h; simp [exec] at h
  | succ fuel ih =>
    intro hooks p p' event slot v s hproc h
    cases hooks with
    | nil =>
      simp only [exec, Except.ok.injEq, Prod.mk.injEq] at h
      obtain ⟨rfl, -, -⟩ := h
      exact ⟨hproc, by simp, by simp⟩
    | cons hk rest =>
      simp only [exec] at h
      cases he : exec fuel p (.hookHandleCall hk event) with
      | error ep => simp [he] at h
      | ok r =>
        obtain ⟨p1, returned, s1⟩ := r
        simp only [he] at h
        obtain ⟨hp1, hl1, hq1, hv1⟩ := exec_hookHandleCall_char fuel hproc he
        subst hv1
        obtain ⟨hp2, hl2, hq2⟩ := ih rest p1 p' event slot v s hp1 h
        refine ⟨hp2, ?_, ?_⟩
        · rw [hl2, hl1, List.append_assoc]
          rfl
        · rw [hq2, hq1, List.append_assoc]
          rfl



theorem getBucket_setBucket : ∀ (hh : List (EventIdenifier × List HookHandle))
    (e' e : EventIdenifier) (b : List HookHandle),
    getBucket (setBucket hh e' b) e = if e = e' then b else getBucket hh e := by
  intro hh e' e b
  induction hh with
  | nil =>
    by_cases he : e = e'
    · simp [setBucket, getBucket, he]
    · simp [setBucket, getBucket, he, Ne.symm he]
  | cons kv rest ih =>
    by_cases hkv : kv.1 = e'
    · by_cases he : e = e'
      · simp [setBucket, getBucket, hkv, he]
      · have hke : ¬ kv.1 = e := fun h => he ((h.symm.trans hkv).symm).symm
        simp [setBucket, getBucket, hkv, he, Ne.symm he, hke]
    · by_cases hke : kv.1 = e
      · have he : ¬ e = e' := fun h => hkv (hke.trans h)
        simp [setBucket, getBucket, hkv, hke, he]
      · simp [setBucket, getBucket, hkv, hke, ih]

theorem map_keep_of_fresh (h : HookHandle) : ∀ (b0 : List HookHandle),
    (∀ x ∈ b0, x.id ≠ h.id) →
    b0.map (fun x => if x.id = h.id then h else x) = b0 := by
  intro b0 hf
  induction b0 with
  | nil => rfl
  | cons x rest ih =>
    simp only [List.map_cons, if_neg (hf x (by simp))]
    rw [ih (fun y hy => hf y (by simp [hy]))]

/-- Inserting a handle whose id is fresh for the bucket appends it. -/
theorem bucketInsert_fresh (b : List HookHandle) (h : HookHandle)
    (hf : ∀ x ∈ b, x.id ≠ h.id) : bucketInsert b h = b ++ [h] := by
  have : b.any (fun x => x.id = h.id) = false := by
    simp only [List.any_eq_false, decide_eq_true_eq]
    exact hf
  simp [bucketInsert, this]

/-- Re-inserting a handle already sitting at the end of a bucket leaves the
bucket unchanged (dict assignment to an existing key). -/
theorem bucketInsert_present (b0 : List HookHandle) (h : HookHandle)
    (hf : ∀ x ∈ b0, x.id ≠ h.id) : bucketInsert (b0 ++ [h]) h = b0 ++ [h] := by
  have hany : (b0 ++ [h]).any (fun x => x.id = h.id) = true := by
    simp [List.any_eq_true]
  simp only [bucketInsert, hany, if_true, List.map_append, map_keep_of_fresh h b0 hf,
    List.map_cons, if_pos rfl, List.map_nil]

/-- A bucket of the form original ++ [h] is stable under the remaining
iterations of the register_hook loop. -/
theorem storeHandle_stable : ∀ (evs : List EventIdenifier)
    (hh : List (EventIdenifier × List HookHandle)) (h : HookHandle) (e : EventIdenifier)
    (b0 : List HookHandle), getBucket hh e = b0 ++ [h] → (∀ x ∈ b0, x.id ≠ h.id) →
    getBucket (storeHandle hh h evs) e = b0 ++ [h] := by
  intro evs
  induction evs with
  | nil => intro hh h e b0 hb hf; simpa [storeHandle] using hb
  | cons e0 rest ih =>
    intro hh h e b0 hb hf
    simp only [storeHandle]
    by_cases he : e = e0
    · subst he
      apply ih _ h e b0 _ hf
      rw [getBucket_setBucket, if_pos rfl, hb, bucketInsert_present b0 h hf]
    · apply ih _ h e b0 _ hf
      rw [getBucket_setBucket, if_neg he, hb]

/-- The register_hook loop appends a fresh handle at the end of the bucket
of every event it is registered for and leaves other buckets unchanged. -/
theorem storeHandle_bucket : ∀ (evs : List EventIdenifier)
    (hh : List (EventIdenifier × List HookHandle)) (h : HookHandle) (e : EventIdenifier),
    (∀ x ∈ getBucket hh e, x.id ≠ h.id) →
    getBucket (storeHandle hh h evs) e
      = if e ∈ evs then getBucket hh e ++ [h] else getBucket hh e := by
  intro evs
  induction evs with
  | nil =>
    intro hh h e _
    simp [storeHandle]
  | cons e0 rest ih =>
    intro hh h e hf
    simp only [storeHandle]
    by_cases he : e = e0
    · subst he
      rw [if_pos (by simp)]
      apply storeHandle_stable rest _ h e (getBucket hh e) _ hf
      rw [getBucket_setBucket, if_pos rfl, bucketInsert_fresh _ h hf]
    · have h1 : getBucket (setBucket hh e0 (bucketInsert (getBucket hh e0) h)) e
          = getBucket hh e := by
        rw [getBucket_setBucket, if_neg he]
      rw [ih _ h e (by rw [h1]; exact hf), h1]
      by_cases hr : e ∈ rest
      · rw [if_pos hr, if_pos (by simp [hr])]
      · rw [if_neg hr, if_neg (by simp [he, hr])]

/-- A successful top-level dispatch from a quiescent dispatcher decomposes
into the run of the dispatched event's bucket followed by the drain of the
queue of nested dispatches, after which the reentrancy flag clears. -/
theorem dispatch_clean_split {fuel : Nat} {p pf : Pluggable} {event : EventIdenifier}
    {v : Option PyDict} {s : Nat}
    (hproc : p.processingEvents = false) (hq : p.eventQueue = [])
    (h : dispatch fuel p event = .ok (pf, v, s)) :
    ∃ fuel1 p1 v1 s1 p2 v2 s2,
      exec fuel1 { p with results := p.results ++ [[]],
                          eventQueue := [],
                          processingEvents := true }
        (.runHooks (getBucket p.hookHandles event) event p.results.length)
        = .ok (p1, v1, s1)
      ∧ exec fuel1 p1 .drainQueue = .ok (p2, v2, s2)
      ∧ pf = { p2 with processingEvents := false }
      ∧ v = none ∧ s = p.results.length := by
  cases fuel with
  | zero => simp [dispatch, exec] at h
  | succ f =>
    simp only [dispatch, exec] at h
    cases hv : validate_event p [event] with
    | error er => simp [hv] at h
    | ok o =>
      simp only [hv, hproc, Bool.false_eq_true, if_false] at h
      cases he : exec f
          { p with results := p.results ++ [[]],
                   eventQueue := p.eventQueue ++ [(event, p.results.length)],
                   processingEvents := true } .drainQueue with
      | error ep => simp [he] at h
      | ok r =>
        obtain ⟨p2, v2, s2⟩ := r
        simp only [he, Except.ok.injEq, Prod.mk.injEq] at h
        obtain ⟨hpf, hv0, hs0⟩ := h
        cases f with
        | zero => simp [exec] at he
        | succ f1 =>
          rw [show (exec (f1 + 1)
              { p with results := p.results ++ [[]],
                       eventQueue := p.eventQueue ++ [(event, p.results.length)],
                       processingEvents := true } .drainQueue)
            = (exec (f1 + 1)
              { p with results := p.results ++ [[]],
                       eventQueue := [(event, p.results.length)],
                       processingEvents := true } .drainQueue) from by rw [hq]; rfl] at he
          simp only [exec] at he
          cases he2 : exec f1
              { p with results := p.results ++ [[]],
                       eventQueue := [],
                       processingEvents := true }
              (.runHooks (getBucket p.hookHandles event) event p.results.length) with
          | error ep => rw [he2] at he; simp at he
          | ok r1 =>
            obtain ⟨p1, v1, s1⟩ := r1
            rw [he2] at he
            exact ⟨f1, p1, v1, s1, p2, v2, s2, he2, he, hpf.symm, hv0.symm, hs0.symm⟩

theorem flatten_nil_of_all_nil {α : Type} : ∀ (L : List (List α)),
    (∀ l ∈ L, l = []) → L.flatten = [] := by
  intro L h
  induction L with
  | nil => rfl
  | cons l rest ih =>
    rw [List.flatten_cons, h l (by simp), ih (fun x hx => h x (by simp [hx]))]
    rfl

/-- C4.  A successful dispatch of A from a quiescent dispatcher first runs
every hook of A (the log grows by exactly A's bucket, in order), while the
nested dispatch calls those hooks make are only enqueued, in
first-in-first-out order of enqueueing; the rest of the delivery is the
single owning drain loop continuing from that queue. -/
theorem c4_reentrant_dispatch_deferred :
    ∀ (p : Pluggable) (A : EventIdenifier) (fuel : Nat) (pf : Pluggable)
      (v : Option PyDict) (s : Nat),
    p.processingEvents = false → p.eventQueue = [] →
    dispatch fuel p A = .ok (pf, v, s) →
    ∃ fuel1 p1 p2 v2 s2,
      p1.invocationLog = p.invocationLog
        ++ (getBucket p.hookHandles A).map (fun hk => (A, hk.id))
      ∧ p1.eventQueue.map Prod.fst
          = ((getBucket p.hookHandles A).map (fun hk => hk.func.dispatches)).flatten
      ∧ exec fuel1 p1 .drainQueue = .ok (p2, v2, s2)
      ∧ pf.invocationLog = p2.invocationLog := by
  intro p A fuel pf v s hproc hq h
  obtain ⟨fuel1, p1, v1, s1, p2, v2, s2, hrun, hdrain, hpf, -, -⟩ :=
    dispatch_clean_split hproc hq h
  obtain ⟨hp1, hl1, hq1⟩ :=
    exec_runHooks_char fuel1 (getBucket p.hookHandles A)
      { p with results := p.results ++ [[]], eventQueue := [], processingEvents := true }
      p1 A p.results.length v1 s1 rfl hrun
  exact ⟨fuel1, p1, p2, v2, s2, by simpa using hl1, by simpa using hq1, hdrain,
    by rw [hpf]⟩

/-- C4 witness: the concrete reentrancy scenario. -/
theorem c4_witness :
    ∃ fuel1 p1 p2 v2 s2,
      p1.invocationLog = pluggableReentrant.invocationLog
        ++ (getBucket pluggableReentrant.hookHandles "A").map (fun hk => ("A", hk.id))
      ∧ p1.eventQueue.map Prod.fst
          = ((getBucket pluggableReentrant.hookHandles "A").map
              (fun hk => hk.func.dispatches)).flatten
      ∧ exec fuel1 p1 .drainQueue = .ok (p2, v2, s2)
      ∧ pluggableReentrantAfter.invocationLog = p2.invocationLog :=
  c4_reentrant_dispatch_deferred pluggableReentrant "A" 20 pluggableReentrantAfter
    none 0 rfl rfl rfl

/-- C6.  Hooks fire in registration order: register_hook appends the fresh
handle at the end of the bucket of every named event, and a dispatch from a
quiescent dispatcher extends the log by exactly the dispatched event's
bucket in list order. -/
theorem c6_hooks_fire_in_registration_order :
    (∀ (p : Pluggable) (f : HookFunc) (evs : List EventIdenifier) (p' : Pluggable)
       (h : HookHandle) (e : EventIdenifier),
       register_hook p f evs = .ok (p', h) → e ∈ evs →
       (∀ x ∈ getBucket p.hookHandles e, x.id ≠ p.hookHandleIdCounter) →
       getBucket p'.hookHandles e = getBucket p.hookHandles e ++ [h])
    ∧ (∀ (p : Pluggable) (e : EventIdenifier) (fuel : Nat) (pf : Pluggable)
       (v : Option PyDict) (s : Nat),
       p.processingEvents = false → p.eventQueue = [] →
       (∀ hk ∈ getBucket p.hookHandles e, hk.func.dispatches = []) →
       dispatch fuel p e = .ok (pf, v, s) →
       pf.invocationLog = p.invocationLog
         ++ (getBucket p.hookHandles e).map (fun hk => (e, hk.id))) := by
  constructor
  · intro p f evs p' h e hreg hmem hfresh
    simp only [register_hook] at hreg
    cases hv : validate_event p evs with
    | error er => simp [hv] at hreg
    | ok o =>
      simp only [hv, Except.ok.injEq, Prod.mk.injEq] at hreg
      obtain ⟨hp', hh⟩ := hreg
      subst hh
      rw [← hp']
      have := storeHandle_bucket evs p.hookHandles ⟨p.hookHandleIdCounter, evs, f⟩ e hfresh
      rw [this, if_pos hmem]
  · intro p e fuel pf v s hproc hq hpure h
    obtain ⟨fuel1, p1, v1, s1, p2, v2, s2, hrun, hdrain, hpf, -, -⟩ :=
      dispatch_clean_split hproc hq h
    obtain ⟨hp1, hl1, hq1⟩ :=
      exec_runHooks_char fuel1 (getBucket p.hookHandles e)
        { p with results := p.results ++ [[]], eventQueue := [], processingEvents := true }
        p1 e p.results.length v1 s1 rfl hrun
    have hflat : ((getBucket p.hookHandles e).map (fun hk => hk.func.dispatches)).flatten
        = [] := by
      apply flatten_nil_of_all_nil
      intro l hl
      obtain ⟨hk, hkmem, rfl⟩ := List.mem_map.mp hl
      exact hpure hk hkmem
    have hq1' : p1.eventQueue = [] := by
      have hmap : List.map Prod.fst p1.eventQueue = ([] : List EventIdenifier) := by
        rw [hq1, hflat]
        simp
      exact List.map_eq_nil_iff.mp hmap
    cases fuel1 with
    | zero => simp [exec] at hdrain
    | succ g =>
      simp only [exec, hq1'] at hdrain
      obtain ⟨rfl, -, -⟩ : p1 = p2 ∧ v2 = none ∧ s2 = 0 := by
        simp only [Except.ok.injEq, Prod.mk.injEq] at hdrain
        exact ⟨hdrain.1, hdrain.2.1.symm, hdrain.2.2.symm⟩
      rw [hpf]
      simpa using hl1

/-- C6 witness: appending a first hook for event e to an empty dispatcher,
and the three-hook dispatch scenario firing in id order. -/
theorem c6_witness :
    getBucket pluggableOrderReg.hookHandles "e"
      = getBucket ({} : Pluggable).hookHandles "e" ++ [⟨0, ["e"], {}⟩]
    ∧ pluggableOrderAfter.invocationLog
      = pluggableOrder.invocationLog
        ++ (getBucket pluggableOrder.hookHandles "e").map (fun hk => ("e", hk.id)) :=
  ⟨c6_hooks_fire_in_registration_order.1 {} {} ["e"] pluggableOrderReg ⟨0, ["e"], {}⟩ "e"
      rfl (by decide) (by decide),
   c6_hooks_fire_in_registration_order.2 pluggableOrder "e" 10 pluggableOrderAfter none 0
      rfl rfl (by decide) rfl⟩

/-- C7.  With a restricted validEvents set, dispatching an unknown event
fails with the UnknownEvent condition before anything mutates (no hook is
invoked); with validEvents unset, dispatch never fails validation, and with
no handler registered it returns outright with an untouched log. -/
theorem c7_dispatch_validation :
    (∀ (p : Pluggable) (e : EventIdenifier) (ve : List EventIdenifier) (fuel : Nat),
       p.validEvents = some ve → e ∉ ve →
       dispatch (fuel + 1) p e = .error (.unknownEvent e, p))
    ∧ (∀ (p : Pluggable) (e : EventIdenifier) (fuel : Nat) (x : EventIdenifier)
         (q : Pluggable),
       p.validEvents = none → dispatch fuel p e ≠ .error (.unknownEvent x, q))
    ∧ (∀ (p : Pluggable) (e : EventIdenifier) (fuel : Nat),
       p.validEvents = none → p.processingEvents = false → p.eventQueue = [] →
       getBucket p.hookHandles e = [] →
       ∃ pf, dispatch (fuel + 3) p e = .ok (pf, none, p.results.length)
         ∧ pf.invocationLog = p.invocationLog) := by
  refine ⟨?_, ?_, ?_⟩
  · intro p e ve fuel hve hmem
    simp [dispatch, exec, validate_event, hve, hmem]
  · intro p e fuel x q hve
    exact exec_no_unknownEvent fuel p (.dispatchEv e) hve x q
  · intro p e fuel hve hproc hq hbucket
    refine ⟨{ p with results := p.results ++ [[]],
                     eventQueue := [],
                     processingEvents := false }, ?_, rfl⟩
    simp only [dispatch, exec, validate_event, hve, hq, hproc, hbucket,
      List.nil_append, Bool.false_eq_true, if_false]

/-- C7 witness: the restricted dispatcher rejects an unknown event, the
unrestricted one never fails validation and succeeds with no handlers. -/
theorem c7_witness :
    dispatch 5 pluggableValidA "zzz" = .error (.unknownEvent "zzz", pluggableValidA)
    ∧ dispatch 7 ({} : Pluggable) "anything" ≠ .error (.unknownEvent "anything", {})
    ∧ ∃ pf, dispatch 8 ({} : Pluggable) "ev" = .ok (pf, none, 0)
        ∧ pf.invocationLog = [] :=
  ⟨c7_dispatch_validation.1 pluggableValidA "zzz" ["a"] 4 rfl (by decide),
   c7_dispatch_validation.2.1 {} "anything" 7 "anything" {} rfl,
   c7_dispatch_validation.2.2 {} "ev" 5 rfl rfl rfl rfl⟩

/-- Delivery only ever logs handle ids that sit in the registry: if no
bucket contains the id bad (and the call being run does not mention it),
every new log entry has an id different from bad. -/
theorem exec_log_avoid (bad : HookHandleId) (fuel : Nat) : ∀ (p : Pluggable) (c : Call),
    (∀ e x, x ∈ getBucket p.hookHandles e → x.id ≠ bad) →
    callAvoids bad c →
    ∀ pf v s, exec fuel p c = .ok (pf, v, s) →
    ∀ y ∈ pf.invocationLog, y ∈ p.invocationLog ∨ y.2 ≠ bad := by
  induction fuel with
  | zero => intro p c _ _ pf v s h; simp [exec] at h
  | succ fuel ih =>
    intro p c hreg hca pf v s h
    cases c with
    | dispatchEv event =>
      simp only [exec] at h
      cases hv : validate_event p [event] with
      | error er => simp [hv] at h
      | ok o =>
        simp only [hv] at h
        cases hb : p.processingEvents with
        | true =>
          simp only [hb, if_true] at h
          obtain ⟨hpf, -, -⟩ : _ = pf ∧ none = v ∧ p.results.length = s := by
            simpa using h
          intro y hy
          rw [← hpf] at hy
          exact Or.inl hy
        | false =>
          simp only [hb, Bool.false_eq_true, if_false] at h
          cases he : exec fuel
              { p with results := p.results ++ [[]],
                       eventQueue := p.eventQueue ++ [(event, p.results.length)],
                       processingEvents := true } .drainQueue with
          | error ep => simp [he] at h
          | ok r =>
            obtain ⟨p2, v2, s2⟩ := r
            simp only [he] at h
            obtain ⟨hpf, -, -⟩ : _ = pf ∧ none = v ∧ p.results.length = s := by
              simpa using h
            intro y hy
            rw [← hpf] at hy
            exact ih { p with
              results := p.results ++ [[]],
              eventQueue := p.eventQueue ++ [(event, p.results.length)],
              processingEvents := true } .drainQueue hreg trivial p2 v2 s2 he y hy
    | drainQueue =>
      simp only [exec] at h
      cases hq : p.eventQueue with
      | nil =>
        simp only [hq] at h
        obtain ⟨rfl, -, -⟩ : p = pf ∧ v = none ∧ s = 0 := by
          simp only [Except.ok.injEq, Prod.mk.injEq] at h
          exact ⟨h.1, h.2.1.symm, h.2.2.symm⟩
        intro y hy
        exact Or.inl hy
      | cons hd rest =>
        obtain ⟨event, slot⟩ := hd
        simp only [hq] at h
        cases he : exec fuel { p with eventQueue := rest }
            (.runHooks (getBucket p.hookHandles event) event slot) with
        | error ep => simp [he] at h
        | ok r =>
          obtain ⟨p1, v1, s1⟩ := r
          simp only [he] at h
          have step1 := ih { p with eventQueue := rest }
            (.runHooks (getBucket p.hookHandles event) event slot) hreg
            (fun hk hmem => hreg event hk hmem) p1 v1 s1 he
          have hcore := exec_ok_core he
          have hreg1 : ∀ e x, x ∈ getBucket p1.hookHandles e → x.id ≠ bad := by
            intro e x hx
            rw [hcore.2] at hx
            exact hreg e x hx
          have step2 := ih p1 .drainQueue hreg1 trivial pf v s h
          intro y hy
          rcases step2 y hy with hy1 | hy2
          · exact step1 y hy1
          · exact Or.inr hy2
    | runHooks hooks event slot =>
      cases hooks with
      | nil =>
        simp only [exec, Except.ok.injEq, Prod.mk.injEq] at h
        obtain ⟨rfl, -, -⟩ := h
        intro y hy
        exact Or.inl hy
      | cons hk rest =>
        simp only [exec] at h
        cases he : exec fuel p (.hookHandleCall hk event) with
        | error ep => simp [he] at h
        | ok r =>
          obtain ⟨p1, returned, s1⟩ := r
          simp only [he] at h
          have step1 := ih p (.hookHandleCall hk event) hreg
            (hca hk (by simp)) p1 returned s1 he
          have hcore := exec_ok_core he
          have hreg1 : ∀ e x, x ∈ getBucket p1.hookHandles e → x.id ≠ bad := by
            intro e x hx
            rw [hcore.2] at hx
            exact hreg e x hx
          cases returned with
          | none =>
            have step2 := ih p1 (.runHooks rest event slot) hreg1
              (fun x hx => hca x (by simp [hx])) pf v s h
            intro y hy
            rcases step2 y hy with hy1 | hy2
            · exact step1 y hy1
            · exact Or.inr hy2
          | some d =>
            have step2 := ih
              { p1 with results := p1.results.set slot (pyDictUpdate (p1.results.getD slot []) d) }
              (.runHooks rest event slot) hreg1
              (fun x hx => hca x (by simp [hx])) pf v s h
            intro y hy
            rcases step2 y hy with hy1 | hy2
            · exact step1 y hy1
            · exact Or.inr hy2
    | hookHandleCall hk event =>
      simp only [exec] at h
      cases he : exec fuel p (.runHookFunc hk event) with
      | error ep => simp [he] at h
      | ok r =>
        obtain ⟨p1, v1, s1⟩ := r
        simp only [he, Except.ok.injEq, Prod.mk.injEq] at h
        obtain ⟨hpf, -, -⟩ := h
        intro y hy
        rw [← hpf] at hy
        exact ih p (.runHookFunc hk event) hreg hca p1 v1 s1 he y hy
    | runHookFunc hk event =>
      simp only [exec] at h
      cases he : exec fuel
          { p with invocationLog := p.invocationLog ++ [(event, hk.id)] }
          (.dispatchEach hk.func.dispatches) with
      | error ep => simp [he] at h
      | ok r =>
        obtain ⟨p2, v2, s2⟩ := r
        simp only [he] at h
        have step1 := ih { p with invocationLog := p.invocationLog ++ [(event, hk.id)] }
          (.dispatchEach hk.func.dispatches) hreg trivial p2 v2 s2 he
        have hfin : pf = p2 := by
          cases hr : hk.func.raises with
          | true => simp [hr] at h
          | false =>
            simp only [hr, Bool.false_eq_true, if_false, Except.ok.injEq,
              Prod.mk.injEq] at h
            exact h.1.symm
        subst hfin
        intro y hy
        rcases step1 y hy with hy1 | hy2
        · rcases List.mem_append.mp hy1 with hy3 | hy4
          · exact Or.inl hy3
          · right
            have : y = (event, hk.id) := by simpa using hy4
            rw [this]
            exact hca
        · exact Or.inr hy2
    | dispatchEach events =>
      cases events with
      | nil =>
        simp only [exec, Except.ok.injEq, Prod.mk.injEq] at h
        obtain ⟨rfl, -, -⟩ := h
        intro y hy
        exact Or.inl hy
      | cons e rest =>
        simp only [exec] at h
        cases he : exec fuel p (.dispatchEv e) with
        | error ep => simp [he] at h
        | ok r =>
          obtain ⟨p1, v1, s1⟩ := r
          simp only [he] at h
          have step1 := ih p (.dispatchEv e) hreg trivial p1 v1 s1 he
          have hcore := exec_ok_core he
          have hreg1 : ∀ e' x, x ∈ getBucket p1.hookHandles e' → x.id ≠ bad := by
            intro e' x hx
            rw [hcore.2] at hx
            exact hreg e' x hx
          have step2 := ih p1 (.dispatchEach rest) hreg1 trivial pf v s h
          intro y hy
          rcases step2 y hy with hy1 | hy2
          · exact step1 y hy1
          · exact Or.inr hy2

theorem removeFromEvents_ok_fields : ∀ (evs : List EventIdenifier) (p : Pluggable)
    (hid : HookHandleId) (p' : Pluggable), removeFromEvents p hid evs = .ok p' →
    p'.validEvents = p.validEvents ∧ p'.hookHandleIdCounter = p.hookHandleIdCounter
    ∧ p'.plugins = p.plugins ∧ p'.eventQueue = p.eventQueue
    ∧ p'.processingEvents = p.processingEvents ∧ p'.results = p.results
    ∧ p'.invocationLog = p.invocationLog := by
  intro evs
  induction evs with
  | nil =>
    intro p hid p' h
    simp only [removeFromEvents, Except.ok.injEq] at h
    subst h
    exact ⟨rfl, rfl, rfl, rfl, rfl, rfl, rfl⟩
  | cons e rest ih =>
    intro p hid p' h
    simp only [removeFromEvents] at h
    cases hb : (getBucket p.hookHandles e).any (fun x => x.id = hid) with
    | false => simp [hb] at h
    | true =>
      simp only [hb, if_true] at h
      exact ih { p with
        hookHandles := setBucket p.hookHandles e
          ((getBucket p.hookHandles e).filter (fun x => x.id ≠ hid)) } hid p' h

theorem removeFromEvents_ok_bucket : ∀ (evs : List EventIdenifier) (p : Pluggable)
    (hid : HookHandleId) (p' : Pluggable), removeFromEvents p hid evs = .ok p' →
    ∀ e, getBucket p'.hookHandles e
      = if e ∈ evs then (getBucket p.hookHandles e).filter (fun x => x.id ≠ hid)
        else getBucket p.hookHandles e := by
  intro evs
  induction evs with
  | nil =>
    intro p hid p' h e
    simp only [removeFromEvents, Except.ok.injEq] at h
    subst h
    simp
  | cons e0 rest ih =>
    intro p hid p' h e
    simp only [removeFromEvents] at h
    cases hb : (getBucket p.hookHandles e0).any (fun x => x.id = hid) with
    | false => simp [hb] at h
    | true =>
      simp only [hb, if_true] at h
      have hstep := ih _ hid p' h e
      have hp1 : getBucket (setBucket p.hookHandles e0
            ((getBucket p.hookHandles e0).filter (fun x => x.id ≠ hid))) e
          = if e = e0 then (getBucket p.hookHandles e0).filter (fun x => x.id ≠ hid)
            else getBucket p.hookHandles e := getBucket_setBucket _ _ _ _
      by_cases he : e = e0
      · subst he
        rw [if_pos rfl] at hp1
        rw [hp1] at hstep
        by_cases hr : e ∈ rest
        · rw [if_pos hr] at hstep
          rw [if_pos (by simp)]
          rw [hstep, List.filter_filter]
          apply List.filter_congr
          intro x _
          simp
        · rw [if_neg hr] at hstep
          rw [if_pos (by simp), hstep]
      · rw [if_neg he] at hp1
        rw [hp1] at hstep
        by_cases hr : e ∈ rest
        · rw [if_pos hr] at hstep
          rw [if_pos (by simp [hr]), hstep]
        · rw [if_neg hr] at hstep
          rw [if_neg (by simp [he, hr]), hstep]

/-- C8 counterexample.  The claim quantifies over every registered handle,
but register_hook accepts an empty event tuple; such a handle occupies no
bucket, so remove_hook is a no-op loop and removing it a second time also
succeeds instead of failing. -/
theorem c8_counterexample :
    ∃ p1 h, register_hook ({} : Pluggable) ({} : HookFunc) [] = .ok (p1, h)
      ∧ remove_hook p1 h = .ok p1
      ∧ remove_hook p1 h = .ok p1
      ∧ ∀ er q, remove_hook p1 h ≠ .error (er, q) := by
  refine ⟨{ hookHandleIdCounter := 1 }, ⟨0, [], {}⟩, rfl, rfl, rfl, ?_⟩
  intro er q hco
  simp [remove_hook, removeFromEvents] at hco

/-- C8 (amended to handles registered under at least one event).  After a
registered handle is removed, its id is gone from the bucket of every event
it was registered under, removing it a second time fails with KeyError, and
no later dispatch of any event ever invokes the removed callback. -/
theorem c8_removed_handle_gone (p : Pluggable) (f : HookFunc)
    (evs : List EventIdenifier) (p1 p2 : Pluggable) (h : HookHandle) :
    register_hook p f evs = .ok (p1, h) →
    evs ≠ [] →
    (∀ e x, x ∈ getBucket p.hookHandles e → x.id < p.hookHandleIdCounter) →
    remove_hook p1 h = .ok p2 →
    (∀ e ∈ evs, ∀ x ∈ getBucket p2.hookHandles e, x.id ≠ h.id)
    ∧ remove_hook p2 h = .error (.keyError, p2)
    ∧ (∀ fuel e pf v s, dispatch fuel p2 e = .ok (pf, v, s) →
        ∀ y ∈ pf.invocationLog, y ∈ p2.invocationLog ∨ y.2 ≠ h.id) := by
  intro hreg hne hfresh hrem
  simp only [register_hook] at hreg
  cases hv : validate_event p evs with
  | error er => simp [hv] at hreg
  | ok o =>
    simp only [hv, Except.ok.injEq, Prod.mk.injEq] at hreg
    obtain ⟨hp1, hh⟩ := hreg
    subst hh
    have hbucket2 := removeFromEvents_ok_bucket _ _ _ _ hrem
    rw [← hp1] at hbucket2
    have habs1 : ∀ e ∈ evs, ∀ x ∈ getBucket p2.hookHandles e,
        x.id ≠ p.hookHandleIdCounter := by
      intro e hmem x hx
      rw [hbucket2 e, if_pos hmem] at hx
      have := List.of_mem_filter hx
      simpa using this
    have habs : ∀ e x, x ∈ getBucket p2.hookHandles e → x.id ≠ p.hookHandleIdCounter := by
      intro e x hx
      by_cases hmem : e ∈ evs
      · exact habs1 e hmem x hx
      · rw [hbucket2 e, if_neg hmem] at hx
        have hsb := storeHandle_bucket evs p.hookHandles
          ⟨p.hookHandleIdCounter, evs, f⟩ e
          (fun x hxm => Nat.ne_of_lt (hfresh e x hxm))
        rw [if_neg hmem] at hsb
        rw [hsb] at hx
        exact Nat.ne_of_lt (hfresh e x hx)
    refine ⟨habs1, ?_, ?_⟩
    · cases evs with
      | nil => exact absurd rfl hne
      | cons e0 tail =>
        simp only [remove_hook, removeFromEvents]
        have : (getBucket p2.hookHandles e0).any
            (fun x => x.id = p.hookHandleIdCounter) = false := by
          simp only [List.any_eq_false, decide_eq_true_eq]
          exact fun x hx => habs1 e0 (by simp) x hx
        simp [this]
    · intro fuel e pf v s hd y hy
      exact exec_log_avoid p.hookHandleIdCounter fuel p2 (.dispatchEv e)
        habs trivial pf v s hd y hy

/-- C8 witness: register one hook for event a, remove it, observe the three
amended-claim conclusions at the concrete input. -/
theorem c8_witness :
    (∀ e ∈ ["a"], ∀ x ∈ getBucket pluggableRemAfter.hookHandles e, x.id ≠ handleRem.id)
    ∧ remove_hook pluggableRemAfter handleRem = .error (.keyError, pluggableRemAfter)
    ∧ (∀ fuel e pf v s, dispatch fuel pluggableRemAfter e = .ok (pf, v, s) →
        ∀ y ∈ pf.invocationLog, y ∈ pluggableRemAfter.invocationLog ∨ y.2 ≠ handleRem.id) :=
  c8_removed_handle_gone {} {} ["a"] pluggableRemReg pluggableRemAfter handleRem
    rfl (by simp) (fun e x hx => by simp [getBucket] at hx) rfl

theorem lt_of_getQ_some {α : Type} : ∀ (l : List α) (i : Nat) (a : α),
    l.get? i = some a → i < l.length := by
  intro l
  induction l with
  | nil => intro i a h; simp at h
  | cons x rest ih =>
    intro i a h
    cases i with
    | zero => simp
    | succ j =>
      simp only [List.get?_cons_succ] at h
      exact Nat.succ_lt_succ (ih j a h)

theorem getQ_set_self {α : Type} : ∀ (l : List α) (i : Nat) (a : α),
    i < l.length → (l.set i a).get? i = some a := by
  intro l
  induction l with
  | nil => intro i a h; simp at h
  | cons x rest ih =>
    intro i a h
    cases i with
    | zero => simp
    | succ j =>
      simp only [List.set_cons_succ, List.get?_cons_succ]
      exact ih j a (Nat.lt_of_succ_lt_succ h)

theorem getQ_set_ne {α : Type} : ∀ (l : List α) (i j : Nat) (a : α),
    i ≠ j → (l.set i a).get? j = l.get? j := by
  intro l
  induction l with
  | nil => intro i j a _; simp
  | cons x rest ih =>
    intro i j a hne
    cases i with
    | zero =>
      cases j with
      | zero => exact absurd rfl hne
      | succ k => simp
    | succ m =>
      cases j with
      | zero => simp
      | succ k =>
        simp only [List.set_cons_succ, List.get?_cons_succ]
        exact ih m k a (fun hmk => hne (by rw [hmk]))

theorem set_getQ_self {α : Type} : ∀ (l : List α) (i : Nat) (a : α),
    l.get? i = some a → l.set i a = l := by
  intro l
  induction l with
  | nil => intro i a h; simp at h
  | cons x rest ih =>
    intro i a h
    cases i with
    | zero =>
      simp only [List.get?_cons_zero, Option.some.injEq] at h
      rw [List.set_cons_zero, h]
    | succ j =>
      simp only [List.get?_cons_succ] at h
      rw [List.set_cons_succ, ih j a h]

theorem set_concat_length {α : Type} : ∀ (l : List α) (a b : α),
    (l ++ [a]).set l.length b = l ++ [b] := by
  intro l a b
  induction l with
  | nil => rfl
  | cons x rest ih =>
    simp only [List.cons_append, List.length_cons, List.set_cons_succ, ih]

theorem extendValidEvents_none {p : Pluggable} (pe : Option (List EventIdenifier))
    (h : p.validEvents = none) : extendValidEvents p pe = p := by
  cases pe with
  | none => simp [extendValidEvents]
  | some l => simp [extendValidEvents, h]

theorem extendValidEvents_plugins (p : Pluggable) (pe : Option (List EventIdenifier)) :
    (extendValidEvents p pe).plugins = p.plugins := by
  cases pe with
  | none => simp [extendValidEvents]
  | some l =>
    cases hve : p.validEvents with
    | none => simp [extendValidEvents, hve]
    | some ve => simp [extendValidEvents, hve]

theorem removeAllHandles_ok_fields : ∀ (hs : List HookHandle) (p p' : Pluggable),
    removeAllHandles p hs = .ok p' →
    p'.validEvents = p.validEvents ∧ p'.hookHandleIdCounter = p.hookHandleIdCounter
    ∧ p'.plugins = p.plugins ∧ p'.eventQueue = p.eventQueue
    ∧ p'.processingEvents = p.processingEvents ∧ p'.results = p.results
    ∧ p'.invocationLog = p.invocationLog := by
  intro hs
  induction hs with
  | nil =>
    intro p p' h
    simp only [removeAllHandles, Except.ok.injEq] at h
    subst h
    exact ⟨rfl, rfl, rfl, rfl, rfl, rfl, rfl⟩
  | cons hk rest ih =>
    intro p p' h
    simp only [removeAllHandles] at h
    cases he : remove_hook p hk with
    | error ep => simp [he] at h
    | ok p1 =>
      simp only [he] at h
      obtain ⟨f1, f2, f3, f4, f5, f6, f7⟩ := removeFromEvents_ok_fields _ _ _ _ he
      obtain ⟨g1, g2, g3, g4, g5, g6, g7⟩ := ih p1 p' h
      exact ⟨g1.trans f1, g2.trans f2, g3.trans f3, g4.trans f4, g5.trans f5,
        g6.trans f6, g7.trans f7⟩

theorem removeAllHandles_bucket_sub : ∀ (hs : List HookHandle) (p p' : Pluggable),
    removeAllHandles p hs = .ok p' →
    ∀ e x, x ∈ getBucket p'.hookHandles e → x ∈ getBucket p.hookHandles e := by
  intro hs
  induction hs with
  | nil =>
    intro p p' h e x hx
    simp only [removeAllHandles, Except.ok.injEq] at h
    subst h
    exact hx
  | cons hk rest ih =>
    intro p p' h e x hx
    simp only [removeAllHandles] at h
    cases he : remove_hook p hk with
    | error ep => simp [he] at h
    | ok p1 =>
      simp only [he] at h
      have hx1 := ih p1 p' h e x hx
      have hb := removeFromEvents_ok_bucket _ _ _ _ he e
      by_cases hmem : e ∈ hk.events
      · rw [hb, if_pos hmem] at hx1
        exact List.mem_of_mem_filter hx1
      · rw [hb, if_neg hmem] at hx1
        exact hx1

/-- C9.  attach_to asserts the plugin is not already attached; detach
asserts it is attached; after a successful detach the pluggable reference
is cleared and the handle list empty, and the plugin can be attached
again. -/
theorem c9_attach_detach_lifecycle :
    (∀ (fuel : Nat) (w : World) (i : Nat) (inst : PluginInst),
       w.instances.get? i = some inst → inst.attached = true →
       pexec (fuel + 1) w (.attachTo i) = .error .assertionError)
    ∧ (∀ (w : World) (i : Nat) (inst : PluginInst),
       w.instances.get? i = some inst → inst.attached = false →
       detach w i = .error .assertionError)
    ∧ (∀ (w : World) (i : Nat) (inst : PluginInst) (w' : World),
       w.instances.get? i = some inst → detach w i = .ok w' →
       w'.instances.get? i = some ⟨inst.cls, false, []⟩
       ∧ (inst.cls.deps = [] → inst.cls.hookDecls = [] →
          ∀ g, ∃ w'', pexec (g + 2) w' (.attachTo i) = .ok w'')) := by
  refine ⟨?_, ?_, ?_⟩
  · intro fuel w i inst hget hatt
    have hget2 : w.instances[i]? = some inst := by simpa using hget
    simp [pexec, hget2, hatt]
  · intro w i inst hget hatt
    have hget2 : w.instances[i]? = some inst := by simpa using hget
    simp [detach, hget2, hatt]
  · intro w i inst w' hget hdet
    simp only [detach, hget] at hdet
    cases hatt : inst.attached with
    | false => simp [hatt] at hdet
    | true =>
      simp only [hatt, Bool.true_eq_false, if_false] at hdet
      cases hrem : removeAllHandles w.plug inst.hookHandles with
      | error ep => simp [hrem] at hdet
      | ok plug1 =>
        simp only [hrem, Except.ok.injEq] at hdet
        have hget' : w'.instances.get? i = some ⟨inst.cls, false, []⟩ := by
          rw [← hdet]
          exact getQ_set_self w.instances i _ (lt_of_getQ_some w.instances i inst hget)
        refine ⟨hget', ?_⟩
        intro hdeps hdecls g
        refine ⟨{ plug := append_plugin
                    (extendValidEvents (setInst w' i ⟨inst.cls, true, []⟩).plug
                      inst.cls.providedEvents) i,
                  instances := (setInst w' i ⟨inst.cls, true, []⟩).instances }, ?_⟩
        simp only [pexec, hget', hdeps, hdecls, List.isEmpty_nil, Bool.not_true,
          Bool.false_eq_true, if_false, not_true, registerMarkedHooks]

/-- C9 witness: double attach on the attached PluginH instance fails;
detach of a never-attached instance fails; after detaching PluginG it is
detached in place and can be attached again. -/
theorem c9_witness :
    pexec 5 worldH (.attachTo 0) = .error .assertionError
    ∧ detach ⟨{}, [{ cls := clsH }]⟩ 0 = .error .assertionError
    ∧ (worldGdetached.instances.get? 0 = some ⟨clsG, false, []⟩
       ∧ ∃ w'', pexec 2 worldGdetached (.attachTo 0) = .ok w'') :=
  ⟨c9_attach_detach_lifecycle.1 4 worldH 0 ⟨clsH, true, [⟨0, ["ev"], {}⟩]⟩ rfl rfl,
   c9_attach_detach_lifecycle.2.1 ⟨{}, [{ cls := clsH }]⟩ 0 { cls := clsH } rfl rfl,
   (c9_attach_detach_lifecycle.2.2 worldG 0 ⟨clsG, true, []⟩ worldGdetached rfl rfl).1,
   (c9_attach_detach_lifecycle.2.2 worldG 0 ⟨clsG, true, []⟩ worldGdetached rfl rfl).2
     rfl rfl 0⟩

/-- C10.  detach removes the instance's handles from the registry (the
buckets only shrink) but leaves the plugins sequence unchanged, with the
instance still in place (same class, detached); a later attach of a plugin
depending on a type the detached instance is compatible with therefore
finds it in the scan and creates no fresh dependency instance. -/
theorem c10_detach_keeps_plugins_sequence
    (w : World) (i : Nat) (inst : PluginInst) (w' : World) :
    w.instances.get? i = some inst → detach w i = .ok w' →
    w'.plug.plugins = w.plug.plugins
    ∧ w'.instances.map (fun x => x.cls) = w.instances.map (fun x => x.cls)
    ∧ (∀ e x, x ∈ getBucket w'.plug.hookHandles e → x ∈ getBucket w.plug.hookHandles e)
    ∧ (∀ (C D : PluginClass) (g : Nat), C.deps = [D] → C.hookDecls = [] →
        i ∈ w.plug.plugins → isinstanceOf inst.cls D = true →
        ∃ w'', pexec (g + 3) { w' with instances := w'.instances ++ [{ cls := C }] }
            (.attachTo w'.instances.length) = .ok w''
          ∧ w''.instances.length = w'.instances.length + 1
          ∧ w''.plug.plugins = w'.plug.plugins ++ [w'.instances.length]) := by
  intro hget hdet
  simp only [detach, hget] at hdet
  cases hatt : inst.attached with
  | false => simp [hatt] at hdet
  | true =>
    simp only [hatt, Bool.true_eq_false, if_false] at hdet
    cases hrem : removeAllHandles w.plug inst.hookHandles with
    | error ep => simp [hrem] at hdet
    | ok plug1 =>
      simp only [hrem, Except.ok.injEq] at hdet
      obtain ⟨-, -, hplugs, -, -, -, -⟩ := removeAllHandles_ok_fields _ _ _ hrem
      have hplug' : w'.plug = plug1 := by rw [← hdet]
      have hinst' : w'.instances = w.instances.set i ⟨inst.cls, false, []⟩ := by
        rw [← hdet]
      refine ⟨?_, ?_, ?_, ?_⟩
      · rw [hplug', hplugs]
      · rw [hinst', List.map_set]
        apply set_getQ_self
        rw [List.get?_map, hget]
        rfl
      · intro e x hx
        rw [hplug'] at hx
        exact removeAllHandles_bucket_sub _ _ _ hrem e x hx
      · intro C D g hCdeps hCdecls himem hinstD
        have hgi' : w'.instances.get? i = some ⟨inst.cls, false, []⟩ := by
          rw [hinst']
          exact getQ_set_self _ _ _ (lt_of_getQ_some _ _ _ hget)
        have hlen : i < w'.instances.length := lt_of_getQ_some _ _ _ hgi'
        have himem' : i ∈ w'.plug.plugins := by
          rw [hplug', hplugs]
          exact himem
        have hgetC : (w'.instances ++ [({ cls := C } : PluginInst)]).get? w'.instances.length
            = some { cls := C } := List.get?_concat_length _ _
        have hsetC : (w'.instances ++ [({ cls := C } : PluginInst)]).set w'.instances.length
            (⟨C, true, []⟩ : PluginInst) = w'.instances ++ [(⟨C, true, []⟩ : PluginInst)] :=
          set_concat_length _ _ _
        have hgeti1 : (w'.instances ++ [(⟨C, true, []⟩ : PluginInst)]).get? i
            = some ⟨inst.cls, false, []⟩ := by
          rw [List.get?_append hlen]
          exact hgi'
        have hds : depSatisfied ⟨w'.plug, w'.instances ++ [(⟨C, true, []⟩ : PluginInst)]⟩ D
            = true := by
          simp only [depSatisfied, List.any_eq_true]
          refine ⟨i, himem', ?_⟩
          simp only [hgeti1]
          exact hinstD
        refine ⟨{ plug := append_plugin (extendValidEvents w'.plug C.providedEvents)
                    w'.instances.length,
                  instances := w'.instances ++ [(⟨C, true, []⟩ : PluginInst)] }, ?_, ?_, ?_⟩
        · simp only [pexec, hgetC, hCdeps, hCdecls, setInst, hsetC, hds, registerMarkedHooks,
            Bool.false_eq_true, if_false, not_true, List.isEmpty_nil, Bool.not_true, if_true]
        · simp
        · simp [append_plugin, extendValidEvents_plugins]

/-- C10 witness: detach the PluginH instance, then attach a NeedsH plugin;
the plugins sequence is unchanged by detach, the registry only shrank, and
the dependent attach finds the detached instance and creates no fresh
PluginH. -/
theorem c10_witness :
    worldHdetached.plug.plugins = worldH.plug.plugins
    ∧ worldHdetached.instances.map (fun x => x.cls) = worldH.instances.map (fun x => x.cls)
    ∧ (∀ e x, x ∈ getBucket worldHdetached.plug.hookHandles e →
        x ∈ getBucket worldH.plug.hookHandles e)
    ∧ ∃ w'', pexec 3 { worldHdetached with
          instances := worldHdetached.instances ++ [{ cls := clsNeedsH }] }
        (.attachTo worldHdetached.instances.length) = .ok w''
        ∧ w''.instances.length = worldHdetached.instances.length + 1
        ∧ w''.plug.plugins
          = worldHdetached.plug.plugins ++ [worldHdetached.instances.length] :=
  have h := c10_detach_keeps_plugins_sequence worldH 0 ⟨clsH, true, [⟨0, ["ev"], {}⟩]⟩
    worldHdetached rfl rfl
  ⟨h.1, h.2.1, h.2.2.1, h.2.2.2 clsNeedsH clsH 0 rfl rfl (by decide) rfl⟩

/-- C5.  Constructing a Pluggable over plugin classes A and B where B
depends on A: when A is already attached, B's dependency scan finds it and
creates nothing, giving exactly one A-compatible instance followed by B;
when only B is given, the dependency is auto-instantiated with no
constructor arguments and attached before B itself is appended. -/
theorem c5_dependency_auto_instantiation :
    ∀ (g : Nat) (A B : PluginClass),
    A.deps = [] → A.hookDecls = [] → B.deps = [A] → B.hookDecls = [] →
    isinstanceOf B A = false →
    (pluggableInit (g + 4) none [A, B]
        = .ok ⟨{ validEvents := none, plugins := [0, 1] },
               [⟨A, true, []⟩, ⟨B, true, []⟩]⟩
      ∧ (([⟨A, true, []⟩, ⟨B, true, []⟩] : List PluginInst).filter
            (fun x => isinstanceOf x.cls A)).length = 1)
    ∧ pluggableInit (g + 4) none [B]
        = .ok ⟨{ validEvents := none, plugins := [1, 0] },
               [⟨B, true, []⟩, ⟨A, true, []⟩]⟩ := by
  intro g A B hAdeps hAdecls hBdeps hBdecls hBA
  have hA : pexec (g + 4) ⟨{ validEvents := none }, [{ cls := A }]⟩ (.attachTo 0)
      = .ok ⟨{ validEvents := none, plugins := [0] }, [⟨A, true, []⟩]⟩ := by
    simp [pexec, hAdeps, hAdecls, setInst, registerMarkedHooks, extendValidEvents_none,
      append_plugin]
  have hdsA : depSatisfied ⟨{ validEvents := none, plugins := [0] },
      [⟨A, true, []⟩, ⟨B, true, []⟩]⟩ A = true := by
    simp [depSatisfied, isinstanceOf]
  have hB : pexec (g + 4) ⟨{ validEvents := none, plugins := [0] },
        [⟨A, true, []⟩, { cls := B }]⟩ (.attachTo 1)
      = .ok ⟨{ validEvents := none, plugins := [0, 1] },
             [⟨A, true, []⟩, ⟨B, true, []⟩]⟩ := by
    simp [pexec, hBdeps, hBdecls, setInst, hdsA, registerMarkedHooks,
      extendValidEvents_none, append_plugin]
  refine ⟨⟨?_, ?_⟩, ?_⟩
  · simp [pluggableInit, attachAll, hA, hB]
  · have hAA : isinstanceOf A A = true := by simp [isinstanceOf]
    simp [hAA, hBA]
  · have hnds : depSatisfied ⟨{ validEvents := none }, [⟨B, true, []⟩]⟩ A = false := by
      simp [depSatisfied]
    have hB0 : pexec (g + 4) ⟨{ validEvents := none }, [{ cls := B }]⟩ (.attachTo 0)
        = .ok ⟨{ validEvents := none, plugins := [1, 0] },
               [⟨B, true, []⟩, ⟨A, true, []⟩]⟩ := by
      simp [pexec, hBdeps, hBdecls, hAdeps, hAdecls, setInst, hnds, registerMarkedHooks,
        extendValidEvents_none, append_plugin]
    simp [pluggableInit, attachAll, hB0]

/-- C5 witness: the concrete PluginA and PluginB scenario. -/
theorem c5_witness :
    (pluggableInit 10 none [clsA, clsB]
        = .ok ⟨{ validEvents := none, plugins := [0, 1] },
               [⟨clsA, true, []⟩, ⟨clsB, true, []⟩]⟩
      ∧ (([⟨clsA, true, []⟩, ⟨clsB, true, []⟩] : List PluginInst).filter
            (fun x => isinstanceOf x.cls clsA)).length = 1)
    ∧ pluggableInit 10 none [clsB]
        = .ok ⟨{ validEvents := none, plugins := [1, 0] },
               [⟨clsB, true, []⟩, ⟨clsA, true, []⟩]⟩ :=
  c5_dependency_auto_instantiation 6 clsA clsB rfl rfl rfl rfl rfl
